import Mathlib

/-!
Shallow embedding of the BAFA advisor scraper (src/bafa.py) and proofs of the
specified properties.

Strings are modelled as Lean `String` / `List Char`.  Python regular
expressions used by the source are specialised to the concrete patterns the
code passes (`^\d{5}`, `^\d{5}$`, `Tel\.: ([^F]+)`, `Fax: ([^E]+)`,
`nr=(\d+)`, `id=(\d+)`): each is translated into an executable scanning
function with the exact semantics of `re.match` / `re.search` for that
pattern.  Python `\d` is modelled as an ASCII digit and Python whitespace as
the six ASCII whitespace characters; all inputs exercised by the claims are
ASCII.  HTML structural querying (XPath) is an external collaborator per the
design: a detail response is modelled by the data the four XPath queries in
the source return (text nodes of the content region, img src attributes
containing no filtering, anchor hrefs, the page URL).
-/

namespace Bafa

/-- The six ASCII whitespace characters recognised by Python str.strip and
str.split. -/
def isWs (c : Char) : Bool :=
  c = ' ' || c = '\t' || c = '\n' || c = '\r' || c = '\x0b' || c = '\x0c'

/-- Negation of `isWs`, the predicate kept by Python str.split. -/
def notWs (c : Char) : Bool := !isWs c

/-- The literal `&nbsp;` that clean_text replaces by a space. -/
def nbsp : List Char := ['&', 'n', 'b', 's', 'p', ';']

/-- The tail of `nbsp` after its first character. -/
def nbspTail : List Char := ['n', 'b', 's', 'p', ';']

/-- Python text.replace with the fixed arguments the source uses:
replace each non-overlapping occurrence of the literal `&nbsp;` by one
space, scanning left to right. -/
def replaceNbsp : List Char → List Char
  | [] => []
  | c :: cs =>
    if nbsp.isPrefixOf (c :: cs) then ' ' :: replaceNbsp (cs.drop 5)
    else c :: replaceNbsp cs
termination_by l => l.length
decreasing_by
  · simp only [List.length_cons, List.length_drop]
    omega
  · simp only [List.length_cons]
    omega

/-- Python str.strip on the right: drop trailing whitespace. -/
def rstripWs (l : List Char) : List Char :=
  (l.reverse.dropWhile isWs).reverse

/-- Python str.strip: drop leading and trailing whitespace. -/
def pyStrip (l : List Char) : List Char :=
  rstripWs (l.dropWhile isWs)

theorem dropWhileLenLe (p : α → Bool) (l : List α) :
    (l.dropWhile p).length ≤ l.length := by
  induction l with
  | nil => simp [List.dropWhile]
  | cons c cs ih =>
    simp only [List.dropWhile]
    split
    · exact Nat.le_trans ih (Nat.le_succ _)
    · exact Nat.le_refl _

/-- Python str.split with no separator argument: split on runs of
whitespace, discarding empty pieces. -/
def splitWs : List Char → List (List Char)
  | [] => []
  | c :: cs =>
    if isWs c then splitWs cs
    else (c :: cs.takeWhile notWs) :: splitWs (cs.dropWhile notWs)
termination_by l => l.length
decreasing_by
  · simp only [List.length_cons]
    omega
  · simp only [List.length_cons]
    have := dropWhileLenLe notWs cs
    omega

/-- Python chr-space .join of a list of words. -/
def joinSp : List (List Char) → List Char
  | [] => []
  | [w] => w
  | w :: v :: ws => w ++ ' ' :: joinSp (v :: ws)

/-- Core of clean_text on character lists: replace `&nbsp;` by spaces,
strip, split on whitespace and re-join with single spaces. -/
def cleanCore (l : List Char) : List Char :=
  joinSp (splitWs (pyStrip (replaceNbsp l)))

/-- BAFASpider.clean_text (src/bafa.py lines 198-203).  `None` and the
empty string clean to the empty string; otherwise the text is normalised
by cleanCore. -/
def clean_text (t : Option String) : String :=
  match t with
  | none => ""
  | some s => if s = "" then "" else String.mk (cleanCore s.data)

/-- Substring test on character lists, modelling the Python `in` operator
on strings: does `pat` occur contiguously in the list. -/
def hasSub (pat : List Char) : List Char → Bool
  | [] => pat.isPrefixOf []
  | c :: cs => pat.isPrefixOf (c :: cs) || hasSub pat cs

/-- Substring test on strings, modelling Python `pat in s`. -/
def strContains (s pat : String) : Bool := hasSub pat.data s.data

theorem pfxRefl (l : List Char) : l.isPrefixOf l = true := by
  induction l with
  | nil => rfl
  | cons a as ih => simp [List.isPrefixOf, ih]

theorem pfxAppend (p l t : List Char) (h : p.isPrefixOf l = true) :
    p.isPrefixOf (l ++ t) = true := by
  induction p generalizing l with
  | nil => simp [List.isPrefixOf]
  | cons a as ih =>
    cases l with
    | nil => simp [List.isPrefixOf] at h
    | cons b bs =>
      simp only [List.isPrefixOf, Bool.and_eq_true] at h
      simp only [List.cons_append, List.isPrefixOf, Bool.and_eq_true]
      exact ⟨h.1, ih bs h.2⟩

theorem pfxCases (p l t : List Char) (h : p.isPrefixOf (l ++ t) = true) :
    p.isPrefixOf l = true ∨ ∃ p2, p = l ++ p2 ∧ p2.isPrefixOf t = true := by
  induction l generalizing p with
  | nil => exact Or.inr ⟨p, rfl, h⟩
  | cons b bs ih =>
    cases p with
    | nil => exact Or.inl rfl
    | cons a as =>
      simp only [List.cons_append, List.isPrefixOf, Bool.and_eq_true] at h
      rcases ih as h.2 with hl | ⟨p2, hp, h2⟩
      · exact Or.inl (by simp [List.isPrefixOf, hl, h.1])
      · refine Or.inr ⟨p2, ?_, h2⟩
        have hab : a = b := by
          have := h.1
          exact eq_of_beq this
        subst hab
        simp [hp]

theorem hasSubPfx {pat l : List Char} (h : hasSub pat l = false) :
    pat.isPrefixOf l = false := by
  cases l with
  | nil => exact h
  | cons c cs =>
    simp only [hasSub, Bool.or_eq_false_iff] at h
    exact h.1

theorem hasSubTail {pat : List Char} {c : Char} {cs : List Char}
    (h : hasSub pat (c :: cs) = false) : hasSub pat cs = false := by
  simp only [hasSub, Bool.or_eq_false_iff] at h
  exact h.2

theorem hasSubLeft {pat u l : List Char} (h : hasSub pat (u ++ l) = false) :
    hasSub pat l = false := by
  induction u with
  | nil => exact h
  | cons a u ih => exact ih (hasSubTail h)

theorem hasSubRight {pat l t : List Char} (h : hasSub pat (l ++ t) = false) :
    hasSub pat l = false := by
  induction l with
  | nil =>
    cases pat with
    | nil =>
      exfalso
      cases t with
      | nil => exact absurd h (by simp [hasSub, List.isPrefixOf])
      | cons x xs => simp [hasSub, List.isPrefixOf] at h
    | cons a as => rfl
  | cons b l ih =>
    simp only [List.cons_append] at h
    simp only [hasSub, Bool.or_eq_false_iff]
    refine ⟨?_, ih (hasSubTail h)⟩
    have h1 := hasSubPfx h
    by_contra hcon
    have : pat.isPrefixOf (b :: l) = true := by
      cases hpl : pat.isPrefixOf (b :: l) with
      | false => exact absurd hpl hcon
      | true => rfl
    have := pfxAppend pat (b :: l) t this
    rw [List.cons_append] at this
    rw [this] at h1
    exact Bool.true_eq_false.mp h1

theorem dropWhileDecomp (p : α → Bool) (l : List α) :
    ∃ u, u ++ l.dropWhile p = l := by
  induction l with
  | nil => exact ⟨[], rfl⟩
  | cons c cs ih =>
    by_cases hc : p c = true
    · rcases ih with ⟨u, hu⟩
      refine ⟨c :: u, ?_⟩
      simp [List.dropWhile, hc, hu]
    · refine ⟨[], ?_⟩
      have hc2 : p c = false := by
        cases hpc : p c with
        | false => rfl
        | true => exact absurd hpc hc
      simp [List.dropWhile, hc2]

theorem rstripDecomp (l : List Char) : ∃ t, rstripWs l ++ t = l := by
  rcases dropWhileDecomp isWs l.reverse with ⟨u, hu⟩
  refine ⟨u.reverse, ?_⟩
  have : (u ++ l.reverse.dropWhile isWs).reverse = l.reverse.reverse := by
    rw [hu]
  rw [List.reverse_append, List.reverse_reverse] at this
  simpa [rstripWs] using this

theorem replacePfxBack (l : List Char) :
    ∀ p : List Char, p.all (fun c => !(c == ' ')) = true →
      p.isPrefixOf (replaceNbsp l) = true → p.isPrefixOf l = true := by
  induction l using Bafa.replaceNbsp.induct with
  | case1 =>
    intro p _ hp
    simpa [replaceNbsp] using hp
  | case2 c cs h ih =>
    intro p hall hp
    rw [replaceNbsp, if_pos h] at hp
    cases p with
    | nil => simp [List.isPrefixOf]
    | cons a as =>
      simp only [List.isPrefixOf, Bool.and_eq_true] at hp
      simp only [List.all_cons, Bool.and_eq_true] at hall
      have ha : a = ' ' := eq_of_beq hp.1
      rw [ha] at hall
      simp at hall
  | case3 c cs h ih =>
    intro p hall hp
    rw [replaceNbsp, if_neg h] at hp
    cases p with
    | nil => simp [List.isPrefixOf]
    | cons a as =>
      simp only [List.isPrefixOf, Bool.and_eq_true] at hp ⊢
      simp only [List.all_cons, Bool.and_eq_true] at hall
      exact ⟨hp.1, ih as hall.2 hp.2⟩

theorem replaceNoOcc (l : List Char) : hasSub nbsp (replaceNbsp l) = false := by
  induction l using Bafa.replaceNbsp.induct with
  | case1 => simp [replaceNbsp, hasSub, nbsp, List.isPrefixOf]
  | case2 c cs h ih =>
    rw [replaceNbsp, if_pos h]
    simp only [hasSub, Bool.or_eq_false_iff]
    refine ⟨?_, ih⟩
    simp [nbsp, List.isPrefixOf]
  | case3 c cs h ih =>
    rw [replaceNbsp, if_neg h]
    simp only [hasSub, Bool.or_eq_false_iff]
    refine ⟨?_, ih⟩
    by_contra hcon
    have hpf : nbsp.isPrefixOf (c :: replaceNbsp cs) = true := by
      cases hx : nbsp.isPrefixOf (c :: replaceNbsp cs) with
      | false => exact absurd hx hcon
      | true => rfl
    simp only [nbsp, List.isPrefixOf, Bool.and_eq_true] at hpf
    have htail : nbspTail.isPrefixOf cs = true :=
      replacePfxBack cs nbspTail (by decide) hpf.2
    have : nbsp.isPrefixOf (c :: cs) = true := by
      simp only [nbsp, List.isPrefixOf, Bool.and_eq_true]
      exact ⟨hpf.1, htail⟩
    exact h this

theorem replaceFix (l : List Char) (h : hasSub nbsp l = false) :
    replaceNbsp l = l := by
  induction l with
  | nil => rw [replaceNbsp]
  | cons c cs ih =>
    have hpf := hasSubPfx h
    rw [replaceNbsp, if_neg (by simp [hpf])]
    rw [ih (hasSubTail h)]

theorem takeWhileAll (p : α → Bool) (l : List α) :
    (l.takeWhile p).all p = true := by
  induction l with
  | nil => rfl
  | cons c cs ih =>
    by_cases hc : p c = true
    · simp [List.takeWhile, hc, ih]
    · have hc2 : p c = false := by
        cases hpc : p c with
        | false => rfl
        | true => exact absurd hpc hc
      simp [List.takeWhile, hc2]

theorem allTakeWhileEq (l : List α) (p : α → Bool) (h : l.all p = true) :
    l.takeWhile p = l := by
  induction l with
  | nil => rfl
  | cons c cs ih =>
    simp only [List.all_cons, Bool.and_eq_true] at h
    simp [List.takeWhile, h.1, ih h.2]

theorem allDropWhileNil (l : List α) (p : α → Bool) (h : l.all p = true) :
    l.dropWhile p = [] := by
  induction l with
  | nil => rfl
  | cons c cs ih =>
    simp only [List.all_cons, Bool.and_eq_true] at h
    simp [List.dropWhile, h.1, ih h.2]

theorem takeWhileAppendSp (w t : List Char) (h : w.all notWs = true) :
    (w ++ ' ' :: t).takeWhile notWs = w := by
  induction w with
  | nil => simp [List.takeWhile, notWs, isWs]
  | cons c cs ih =>
    simp only [List.all_cons, Bool.and_eq_true] at h
    simp [List.takeWhile, h.1, ih h.2]

theorem dropWhileAppendSp (w t : List Char) (h : w.all notWs = true) :
    (w ++ ' ' :: t).dropWhile notWs = ' ' :: t := by
  induction w with
  | nil => simp [List.dropWhile, notWs, isWs]
  | cons c cs ih =>
    simp only [List.all_cons, Bool.and_eq_true] at h
    simp [List.dropWhile, h.1, ih h.2]

theorem notWsHead {c : Char} {cs : List Char} (h : (c :: cs).all notWs = true) :
    isWs c = false := by
  simp only [List.all_cons, Bool.and_eq_true] at h
  have := h.1
  simp only [notWs, Bool.not_eq_eq_eq_not, Bool.not_true] at this
  exact this

theorem splitWsSingle (w : List Char) (hne : w ≠ []) (hall : w.all notWs = true) :
    splitWs w = [w] := by
  cases w with
  | nil => exact absurd rfl hne
  | cons c cs =>
    have hc := notWsHead hall
    simp only [List.all_cons, Bool.and_eq_true] at hall
    rw [splitWs, if_neg (by simp [hc])]
    rw [allTakeWhileEq cs notWs hall.2, allDropWhileNil cs notWs hall.2]
    rw [splitWs]

theorem splitWsWordSp (w t : List Char) (hne : w ≠ []) (hall : w.all notWs = true) :
    splitWs (w ++ ' ' :: t) = w :: splitWs t := by
  cases w with
  | nil => exact absurd rfl hne
  | cons c cs =>
    have hc := notWsHead hall
    simp only [List.all_cons, Bool.and_eq_true] at hall
    rw [List.cons_append, splitWs, if_neg (by simp [hc])]
    rw [takeWhileAppendSp cs t hall.2, dropWhileAppendSp cs t hall.2]
    rw [splitWs, if_pos (by simp [isWs])]

theorem splitWsJoin (ws : List (List Char))
    (h : ∀ w ∈ ws, w ≠ [] ∧ w.all notWs = true) :
    splitWs (joinSp ws) = ws := by
  induction ws with
  | nil => rw [joinSp, splitWs]
  | cons w vs ih =>
    cases vs with
    | nil =>
      have hw := h w (by simp)
      rw [joinSp]
      exact splitWsSingle w hw.1 hw.2
    | cons v vs2 =>
      have hw := h w (by simp)
      rw [joinSp, splitWsWordSp w (joinSp (v :: vs2)) hw.1 hw.2]
      rw [ih (fun u hu => h u (List.mem_cons_of_mem w hu))]

theorem splitWsSound (l : List Char) :
    ∀ w ∈ splitWs l, w ≠ [] ∧ w.all notWs = true := by
  induction l using Bafa.splitWs.induct with
  | case1 =>
    intro w hw
    rw [splitWs] at hw
    exact absurd hw (List.not_mem_nil w)
  | case2 c cs h ih =>
    intro w hw
    rw [splitWs, if_pos h] at hw
    exact ih w hw
  | case3 c cs h ih =>
    intro w hw
    rw [splitWs, if_neg h] at hw
    rcases List.mem_cons.mp hw with he | hm
    · subst he
      constructor
      · simp
      · simp only [List.all_cons, Bool.and_eq_true]
        constructor
        · simp only [notWs]
          by_cases hx : isWs c = true
          · exact absurd hx h
          · simp only [Bool.not_eq_true] at hx
            simp [hx]
        · exact takeWhileAll notWs cs
    · exact ih w hm

theorem splitWsParts (l : List Char) :
    ∀ w ∈ splitWs l, ∃ u v, u ++ (w ++ v) = l := by
  induction l using Bafa.splitWs.induct with
  | case1 =>
    intro w hw
    rw [splitWs] at hw
    exact absurd hw (List.not_mem_nil w)
  | case2 c cs h ih =>
    intro w hw
    rw [splitWs, if_pos h] at hw
    rcases ih w hw with ⟨u, v, huv⟩
    exact ⟨c :: u, v, by rw [List.cons_append, huv]⟩
  | case3 c cs h ih =>
    intro w hw
    rw [splitWs, if_neg h] at hw
    rcases List.mem_cons.mp hw with he | hm
    · subst he
      refine ⟨[], cs.dropWhile notWs, ?_⟩
      simp [List.takeWhile_append_dropWhile]
    · rcases ih w hm with ⟨u, v, huv⟩
      rcases dropWhileDecomp notWs cs with ⟨s, hs⟩
      refine ⟨c :: (s ++ u), v, ?_⟩
      rw [List.cons_append, List.append_assoc, huv, hs]

theorem dropWhileConsFix {c : Char} (cs : List Char) (h : isWs c = false) :
    (c :: cs).dropWhile isWs = c :: cs := by
  simp [List.dropWhile, h]

theorem headNotWsOfFix {c : Char} {cs : List Char}
    (h : (c :: cs).dropWhile isWs = c :: cs) : isWs c = false := by
  cases hx : isWs c with
  | false => rfl
  | true =>
    exfalso
    simp only [List.dropWhile, hx] at h
    have hlen := dropWhileLenLe isWs cs
    have : (List.dropWhile isWs cs).length = (c :: cs).length := by rw [h]
    simp only [List.length_cons] at this
    omega

theorem joinSpDecomp (w : List Char) (ws : List (List Char)) :
    ∃ t, joinSp (w :: ws) = w ++ t := by
  cases ws with
  | nil => exact ⟨[], by rw [joinSp, List.append_nil]⟩
  | cons v vs => exact ⟨' ' :: joinSp (v :: vs), by rw [joinSp]⟩

theorem joinSpNe (w : List Char) (ws : List (List Char)) (hne : w ≠ []) :
    joinSp (w :: ws) ≠ [] := by
  rcases joinSpDecomp w ws with ⟨t, ht⟩
  rw [ht]
  cases w with
  | nil => exact absurd rfl hne
  | cons c cs => simp

theorem revJoinFix (ws : List (List Char))
    (h : ∀ w ∈ ws, w ≠ [] ∧ w.all notWs = true) :
    (joinSp ws).reverse.dropWhile isWs = (joinSp ws).reverse := by
  induction ws with
  | nil => rw [joinSp]; rfl
  | cons w vs ih =>
    cases vs with
    | nil =>
      have hw := h w (by simp)
      rw [joinSp]
      have hall : w.reverse.all notWs = true := by
        rw [List.all_reverse]
        exact hw.2
      cases hrev : w.reverse with
      | nil =>
        have := congrArg List.reverse hrev
        rw [List.reverse_reverse] at this
        exact absurd this hw.1
      | cons d ds =>
        rw [hrev] at hall
        exact dropWhileConsFix ds (notWsHead hall)
    | cons v vs2 =>
      have hw := h w (by simp)
      have hrest : ∀ u ∈ v :: vs2, u ≠ [] ∧ u.all notWs = true :=
        fun u hu => h u (List.mem_cons_of_mem w hu)
      have hJne : joinSp (v :: vs2) ≠ [] :=
        joinSpNe v vs2 (hrest v (by simp)).1
      have ihr := ih hrest
      rw [joinSp, List.reverse_append, List.reverse_cons, List.append_assoc]
      cases hrev : (joinSp (v :: vs2)).reverse with
      | nil =>
        have := congrArg List.reverse hrev
        rw [List.reverse_reverse] at this
        exact absurd this hJne
      | cons d ds =>
        rw [hrev] at ihr
        have hd := headNotWsOfFix ihr
        rw [List.cons_append]
        exact dropWhileConsFix (ds ++ ([' '] ++ w.reverse)) hd

theorem stripFixJoin (ws : List (List Char))
    (h : ∀ w ∈ ws, w ≠ [] ∧ w.all notWs = true) :
    pyStrip (joinSp ws) = joinSp ws := by
  have h1 : (joinSp ws).dropWhile isWs = joinSp ws := by
    cases ws with
    | nil => rw [joinSp]; rfl
    | cons w vs =>
      have hw := h w (by simp)
      rcases joinSpDecomp w vs with ⟨t, ht⟩
      rw [ht]
      cases w with
      | nil => exact absurd rfl hw.1
      | cons c cs =>
        rw [List.cons_append]
        exact dropWhileConsFix (cs ++ t) (notWsHead hw.2)
  rw [pyStrip, h1, rstripWs, revJoinFix ws h, List.reverse_reverse]

theorem hasSubNil : hasSub nbsp [] = false := by
  rw [hasSub]
  rfl

theorem hasSubSpaceCons (t : List Char) (h : hasSub nbsp t = false) :
    hasSub nbsp (' ' :: t) = false := by
  simp only [hasSub, Bool.or_eq_false_iff]
  exact ⟨by simp [nbsp, List.isPrefixOf], h⟩

theorem spaceNotMemNbsp : ' ' ∈ nbsp → False := by decide

theorem hasSubAcrossSp (w t : List Char) (hw : hasSub nbsp w = false)
    (ht : hasSub nbsp t = false) : hasSub nbsp (w ++ ' ' :: t) = false := by
  induction w with
  | nil => exact hasSubSpaceCons t ht
  | cons a w2 ih =>
    rw [List.cons_append]
    simp only [hasSub, Bool.or_eq_false_iff]
    refine ⟨?_, ih (hasSubTail hw)⟩
    by_contra hcon
    have hpf : nbsp.isPrefixOf (a :: (w2 ++ ' ' :: t)) = true := by
      cases hx : nbsp.isPrefixOf (a :: (w2 ++ ' ' :: t)) with
      | false => exact absurd hx hcon
      | true => rfl
    rw [← List.cons_append] at hpf
    rcases pfxCases nbsp (a :: w2) (' ' :: t) hpf with hl | ⟨p2, hp, h2⟩
    · have := hasSubPfx hw
      rw [hl] at this
      exact Bool.true_eq_false.mp this
    · cases p2 with
      | nil =>
        rw [List.append_nil] at hp
        have := hasSubPfx hw
        rw [hp, pfxRefl] at this
        exact Bool.true_eq_false.mp this
      | cons b p3 =>
        simp only [List.isPrefixOf, Bool.and_eq_true] at h2
        have hb : b = ' ' := eq_of_beq h2.1
        subst hb
        apply spaceNotMemNbsp
        rw [hp]
        exact List.mem_append_right _ (by simp)

theorem hasSubJoin (ws : List (List Char))
    (h : ∀ w ∈ ws, hasSub nbsp w = false) :
    hasSub nbsp (joinSp ws) = false := by
  induction ws with
  | nil => rw [joinSp]; exact hasSubNil
  | cons w vs ih =>
    cases vs with
    | nil => rw [joinSp]; exact h w (by simp)
    | cons v vs2 =>
      rw [joinSp]
      exact hasSubAcrossSp w (joinSp (v :: vs2)) (h w (by simp))
        (ih (fun u hu => h u (List.mem_cons_of_mem w hu)))

theorem hasSubStrip (x : List Char) (h : hasSub nbsp x = false) :
    hasSub nbsp (pyStrip x) = false := by
  rcases dropWhileDecomp isWs x with ⟨u, hu⟩
  have h1 : hasSub nbsp (x.dropWhile isWs) = false := by
    apply hasSubLeft (u := u)
    rw [hu]
    exact h
  rcases rstripDecomp (x.dropWhile isWs) with ⟨t, ht⟩
  apply hasSubRight (t := t)
  rw [pyStrip] at *
  rw [ht]
  exact h1

theorem cleanCoreIdem (l : List Char) : cleanCore (cleanCore l) = cleanCore l := by
  have hS : hasSub nbsp (pyStrip (replaceNbsp l)) = false :=
    hasSubStrip (replaceNbsp l) (replaceNoOcc l)
  have hwords := splitWsSound (pyStrip (replaceNbsp l))
  have hwordsSub : ∀ w ∈ splitWs (pyStrip (replaceNbsp l)), hasSub nbsp w = false := by
    intro w hw
    rcases splitWsParts (pyStrip (replaceNbsp l)) w hw with ⟨u, v, huv⟩
    apply hasSubRight (t := v)
    apply hasSubLeft (u := u)
    rw [huv]
    exact hS
  have hR : hasSub nbsp (joinSp (splitWs (pyStrip (replaceNbsp l)))) = false :=
    hasSubJoin _ hwordsSub
  have key : replaceNbsp (joinSp (splitWs (pyStrip (replaceNbsp l)))) =
      joinSp (splitWs (pyStrip (replaceNbsp l))) := replaceFix _ hR
  show joinSp (splitWs (pyStrip (replaceNbsp (joinSp (splitWs (pyStrip (replaceNbsp l))))))) =
      joinSp (splitWs (pyStrip (replaceNbsp l)))
  rw [key, stripFixJoin _ hwords, splitWsJoin _ hwords]

/-- C7: clean_text is idempotent — cleaning an already cleaned text returns
it unchanged — and empty or absent (None) input cleans to the empty
string. -/
theorem clean_text_idempotent (t : Option String) :
    clean_text (some (clean_text t)) = clean_text t ∧
    clean_text none = "" ∧ clean_text (some "") = "" := by
  refine ⟨?_, rfl, by simp [clean_text]⟩
  cases t with
  | none =>
    simp [clean_text]
  | some s =>
    by_cases hs : s = ""
    · subst hs
      simp [clean_text]
    · have hcs : clean_text (some s) = String.mk (cleanCore s.data) := by
        rw [clean_text, if_neg hs]
      rw [hcs]
      by_cases hR : cleanCore s.data = []
      · rw [clean_text, if_pos (show String.mk (cleanCore s.data) = "" by rw [hR]), hR]
      · rw [clean_text, if_neg ?hne]
        case hne =>
          intro hc
          apply hR
          have := congrArg String.data hc
          simpa using this
        show String.mk (cleanCore (cleanCore s.data)) = String.mk (cleanCore s.data)
        exact congrArg String.mk (cleanCoreIdem s.data)

/-- One advisor record.  The raw item dictionary built by the spider and
the validated AdvisorData model share this shape: twelve string fields. -/
structure Item where
  Beratername : String := ""
  Beraterfirma : String := ""
  Strasse : String := ""
  PLZ : String := ""
  Ort : String := ""
  Telefon : String := ""
  Fax : String := ""
  Email_Vorhanden : String := "Nein"
  Email_Image_ID : String := ""
  Website : String := ""
  BFEE_ID : String := ""
  Detail_URL : String := ""
deriving Repr, DecidableEq

/-- A detail-page response, modelled by what the XPath queries of the
source read from it: the text nodes of the content region (the div of
class bereich) in document order, the src attributes of the img elements
of that region, the href attributes of the anchors of that region, and
the response URL. -/
structure Response where
  detailTexts : List String := []
  imgSrcs : List String := []
  hrefs : List String := []
  url : String := ""
deriving Repr, DecidableEq

/-- One table row of the listing page: the first text node of each td
cell (none when a cell has no text node) and the first href under the
fourth cell. -/
structure ListingRow where
  cellTexts : List (Option String) := []
  href4 : Option String := none
deriving Repr, DecidableEq

/-- ProgressStatsCollector (src/bafa.py lines 108-161).  The field pbar
models the Optional tqdm progress bar as set or unset; the start time and
the debug flag only affect wall-clock reporting and logging and are not
modelled. -/
structure ProgressStatsCollector where
  total_items : Nat := 0
  processed_items : Nat := 0
  failed_items : Nat := 0
  pbar : Bool := false
  errors : List String := []
deriving Repr, DecidableEq

/-- The collector as built by its constructor. -/
def ProgressStatsCollector.init : ProgressStatsCollector := {}

/-- ProgressStatsCollector.set_total (lines 120-129): store the total and
create the progress bar. -/
def ProgressStatsCollector.set_total (s : ProgressStatsCollector) (total : Nat) :
    ProgressStatsCollector :=
  { s with total_items := total, pbar := true }

/-- ProgressStatsCollector.increment (lines 131-140): guarded by the
progress bar being set; increments processed, and failed when the outcome
is unsuccessful. -/
def ProgressStatsCollector.increment (s : ProgressStatsCollector) (success : Bool) :
    ProgressStatsCollector :=
  if s.pbar then
    { s with processed_items := s.processed_items + 1,
             failed_items := if success then s.failed_items else s.failed_items + 1 }
  else s

/-- ProgressStatsCollector.add_error (lines 142-146): append the message
to the error collection, unconditionally. -/
def ProgressStatsCollector.add_error (s : ProgressStatsCollector) (error : String) :
    ProgressStatsCollector :=
  { s with errors := s.errors ++ [error] }

/-- Python re.search for the patterns the source uses, all of the shape
literal label followed by one greedy one-or-more character class group:
scan left to right for a position where the label matches and at least one
following character satisfies keep; the group is the maximal run of keep
characters after the label (nothing follows the group in the pattern, so
no backtracking occurs). -/
def reSearchCap (label : List Char) (keep : Char → Bool) : List Char → Option (List Char)
  | [] => none
  | c :: cs =>
    if label.isPrefixOf (c :: cs) then
      let cap := ((c :: cs).drop label.length).takeWhile keep
      if cap.isEmpty then reSearchCap label keep cs else some cap
    else reSearchCap label keep cs

/-- Python re.match of the five-leading-digit pattern against a fragment:
the first five characters exist and are digits (the digit class is
modelled as ASCII digits). -/
def fiveDigitStart (s : String) : Bool :=
  decide (s.data.length ≥ 5) && (s.data.take 5).all Char.isDigit

/-- The address scan of extract_contact_details (lines 306-313): find the
first fragment whose text starts with five digits; produce the postal code
(its first five characters), the city (the remainder, stripped) and the
fragment preceding it when one exists.  The scan stops at the first
match. -/
def addrScan (prev : Option String) : List String → Option (String × String × Option String)
  | [] => none
  | t :: rest =>
    if fiveDigitStart t then
      some (String.mk (t.data.take 5), String.mk (pyStrip (t.data.drop 5)), prev)
    else addrScan (some t) rest

/-- Python regex match of the anchored five-digit pattern of the PLZ
validator.  Python semantics of the end anchor: the match also succeeds
when one newline follows the five digits at the end of the string.  The
digit class is modelled as ASCII digits. -/
def plzPattern (v : String) : Bool :=
  (v.data.length == 5 && v.data.all Char.isDigit) ||
  (v.data.length == 6 && (v.data.take 5).all Char.isDigit && v.data.drop 5 == ['\n'])

/-- AdvisorData.validate_plz (lines 76-82): a non-empty value not matching
the five-digit pattern is reset to the empty string; the record is not
rejected. -/
def validate_plz (v : String) : String :=
  if v ≠ "" ∧ plzPattern v = false then "" else v

/-- AdvisorData.validate_email_vorhanden (lines 84-87): coerce to the
yes-token exactly when the raw value equals it, otherwise the no-token. -/
def validate_email_vorhanden (v : String) : String :=
  if v = "Ja" then "Ja" else "Nein"

/-- Python str.startswith with the tuple of the two scheme literals. -/
def startsHttp (v : String) : Bool :=
  ("http://".data).isPrefixOf v.data || ("https://".data).isPrefixOf v.data

/-- AdvisorData.validate_website (lines 89-94): a non-empty value lacking
an explicit scheme has https:// prepended. -/
def validate_website (v : String) : String :=
  if v ≠ "" ∧ startsHttp v = false then "https://" ++ v else v

/-- Construction of the pydantic AdvisorData model (lines 61-94) from the
raw item dictionary: Beratername must be non-empty (min_length 1) or
construction is rejected; the field validators normalise PLZ,
Email_Vorhanden and Website. -/
def mkAdvisorData (raw : Item) : Except String Item :=
  if raw.Beratername = "" then Except.error "Beratername: string too short"
  else Except.ok { raw with
    PLZ := validate_plz raw.PLZ,
    Email_Vorhanden := validate_email_vorhanden raw.Email_Vorhanden,
    Website := validate_website raw.Website }

/-- BAFASpider.extract_row_data (lines 210-233): a row with at least four
td cells yields a fresh item whose name and firm are the cleaned first
text of the first two cells and whose contact fields are empty; a row with
fewer cells yields none.  The function is total: the exception path of the
source fires only when the XPath collaborator itself raises, which has no
counterpart on well-formed row data. -/
def extract_row_data (row : ListingRow) : Option Item :=
  if row.cellTexts.length ≥ 4 then
    some { Beratername := clean_text (row.cellTexts.getD 0 none),
           Beraterfirma := clean_text (row.cellTexts.getD 1 none) }
  else none

/-- urllib.parse.urljoin, an external collaborator of the orchestrator.
Modelled for the inputs this spider produces: an absolute href is kept, a
relative one is resolved against the listing URL by concatenation.  No
claim inspects the resolved URL. -/
def urljoin (base url : String) : String :=
  if strContains url "://" then url else base ++ url

/-- The result of the listing-page phase: the tracker after set_total and
the dispatched detail requests, each carrying its item. -/
structure ParseResult where
  stats : ProgressStatsCollector
  requests : List Item
deriving Repr, DecidableEq

/-- BAFASpider.parse (lines 235-270): read the listing rows; in test mode
truncate to the first five rows and force the reported total to the
constant five; initialise the tracker with that total; dispatch one detail
request per row that yields an item and exposes a detail href, the request
carrying the item with Detail_URL resolved.  The per-row exception handler
of the source is unreachable here because the modelled row extraction is
total. -/
def parse (test_mode : Bool) (stats : ProgressStatsCollector)
    (rows : List ListingRow) (pageUrl : String) : ParseResult :=
  let rows2 := if test_mode then rows.take 5 else rows
  let total_rows := if test_mode then 5 else rows.length
  let stats2 := stats.set_total total_rows
  let reqs := rows2.filterMap (fun row =>
    match extract_row_data row with
    | some item =>
      match row.href4 with
      | some d => some { item with Detail_URL := urljoin pageUrl d }
      | none => none
    | none => none)
  { stats := stats2, requests := reqs }

/-- The label literal of the phone regex. -/
def telLabel : List Char := ['T', 'e', 'l', '.', ':', ' ']

/-- The label literal of the fax regex. -/
def faxLabel : List Char := ['F', 'a', 'x', ':', ' ']

/-- The label literal of the email-image identifier regex. -/
def nrLabel : List Char := ['n', 'r', '=']

/-- The label literal of the site identifier regex. -/
def idLabel : List Char := ['i', 'd', '=']

/-- BAFASpider.extract_contact_details (lines 302-348).  Every selected
email-marker img has a src containing the marker, so the first src the
source reads back is the head of the filtered list and its truthiness test
succeeds. -/
def extract_contact_details (item : Item) (detail_texts : List String)
    (content : String) (resp : Response) : Item :=
  let itemA := match addrScan none detail_texts with
    | some (plz, ort, prevFrag) =>
      let item1 := { item with PLZ := plz, Ort := ort }
      match prevFrag with
      | some strasse => { item1 with Strasse := strasse }
      | none => item1
    | none => item
  let itemT := match reSearchCap telLabel (fun d => !(d == 'F')) content.data with
    | some cap => { itemA with Telefon := clean_text (some (String.mk cap)) }
    | none => itemA
  let itemF := match reSearchCap faxLabel (fun d => !(d == 'E')) content.data with
    | some cap => { itemT with Fax := clean_text (some (String.mk cap)) }
    | none => itemT
  let itemE := match resp.imgSrcs.filter (fun s => strContains s "m2i") with
    | [] => itemF
    | src :: _ =>
      let item1 := { itemF with Email_Vorhanden := "Ja" }
      match reSearchCap nrLabel Char.isDigit src.data with
      | some cap => { item1 with Email_Image_ID := String.mk cap }
      | none => item1
  let itemW := match (resp.hrefs.filter (fun h => strContains h "http")).head? with
    | some w =>
      if w ≠ "" ∧ strContains w "bafa.bund.de" = false then { itemE with Website := w }
      else itemE
    | none => itemE
  match reSearchCap idLabel Char.isDigit resp.url.data with
  | some cap => { itemW with BFEE_ID := String.mk cap }
  | none => itemW

/-- BAFASpider.parse_details (lines 272-300): clean and filter the text
nodes of the content region; with no usable fragment return none touching
neither the result set nor the tracker; otherwise run the contact
extraction and the pydantic validation, appending the validated record and
counting a success, or counting a failure when construction is rejected.
A pydantic rejection reaches the generic exception handler of the source
(the except ValidationError clause names the local exception class, not
the pydantic one) whose observable effect is the same: no append, a
failure increment, return none. -/
def parse_details (stats : ProgressStatsCollector) (items : List Item)
    (item : Item) (resp : Response) :
    Option Item × ProgressStatsCollector × List Item :=
  let dts := (resp.detailTexts.map (fun t => clean_text (some t))).filter (fun t => t ≠ "")
  if dts = [] then (none, stats, items)
  else
    let content := String.intercalate " " dts
    let item2 := extract_contact_details item dts content resp
    match mkAdvisorData item2 with
    | Except.ok adv => (some adv, stats.increment true, items ++ [adv])
    | Except.error _ => (none, stats.increment false, items)

theorem extract_contact_details_Beratername (item : Item) (dts : List String)
    (content : String) (resp : Response) :
    (extract_contact_details item dts content resp).Beratername = item.Beratername := by
  unfold extract_contact_details
  repeat' split
  all_goals simp_all

theorem mkAdvisorData_ok (raw adv : Item) (h : mkAdvisorData raw = Except.ok adv) :
    raw.Beratername ≠ "" ∧
    adv = { raw with
      PLZ := validate_plz raw.PLZ,
      Email_Vorhanden := validate_email_vorhanden raw.Email_Vorhanden,
      Website := validate_website raw.Website } := by
  rw [mkAdvisorData] at h
  by_cases hb : raw.Beratername = ""
  · rw [if_pos hb] at h
    exact absurd h (by simp)
  · rw [if_neg hb] at h
    simp only [Except.ok.injEq] at h
    exact ⟨hb, h.symm⟩

theorem parseReqsLen (u : String) (rows : List ListingRow)
    (h : ∀ r ∈ rows, 4 ≤ r.cellTexts.length ∧ r.href4.isSome = true) :
    (rows.filterMap (fun row =>
      match extract_row_data row with
      | some item =>
        match row.href4 with
        | some d => some { item with Detail_URL := urljoin u d }
        | none => none
      | none => none)).length = rows.length := by
  induction rows with
  | nil => rfl
  | cons r rs ih =>
    have hr := h r (List.mem_cons_self r rs)
    have hrs := ih (fun x hx => h x (List.mem_cons_of_mem r hx))
    rcases hhd : r.href4 with _ | d
    · rw [hhd] at hr
      simp at hr
    · have he : extract_row_data r =
          some { Beratername := clean_text (r.cellTexts.getD 0 none),
                 Beraterfirma := clean_text (r.cellTexts.getD 1 none) } := by
        rw [extract_row_data, if_pos hr.1]
      rw [List.filterMap_cons]
      simp only [he, hhd]
      simp [hrs]

/-- The cleaned detail fragments of the specification scenario. -/
def scenarioTexts : List String :=
  ["Musterstrasse 1", "12345 Berlin", "Tel.: 030-1234 Fax: 030-5678"]

/-- The detail response of the specification scenario: the content region
yields the three fragments and contains an email-marker image whose src
ends in the marker query with identifier 77. -/
def scenarioResp : Response :=
  { detailTexts := scenarioTexts,
    imgSrcs := ["https://elan1.bafa.bund.de/bafa-portal/audit/m2i?nr=77"],
    hrefs := [],
    url := "https://elan1.bafa.bund.de/bafa-portal/audit-suche/showDetail" }

/-- A raw item as handed over by the listing phase. -/
def scenarioItem : Item := { Beratername := "Max Muster" }

/-- C1: on the scenario detail page, extract_contact_details sets
Strasse, PLZ, Ort, Telefon, Fax, Email_Vorhanden and Email_Image_ID to the
specified values. -/
theorem c1_extract_contact_details_scenario :
    (extract_contact_details scenarioItem scenarioTexts
        (String.intercalate " " scenarioTexts) scenarioResp).Strasse = "Musterstrasse 1" ∧
    (extract_contact_details scenarioItem scenarioTexts
        (String.intercalate " " scenarioTexts) scenarioResp).PLZ = "12345" ∧
    (extract_contact_details scenarioItem scenarioTexts
        (String.intercalate " " scenarioTexts) scenarioResp).Ort = "Berlin" ∧
    (extract_contact_details scenarioItem scenarioTexts
        (String.intercalate " " scenarioTexts) scenarioResp).Telefon = "030-1234" ∧
    (extract_contact_details scenarioItem scenarioTexts
        (String.intercalate " " scenarioTexts) scenarioResp).Fax = "030-5678" ∧
    (extract_contact_details scenarioItem scenarioTexts
        (String.intercalate " " scenarioTexts) scenarioResp).Email_Vorhanden = "Ja" ∧
    (extract_contact_details scenarioItem scenarioTexts
        (String.intercalate " " scenarioTexts) scenarioResp).Email_Image_ID = "77" := by
  have h1 : reSearchCap telLabel (fun d => !(d == 'F'))
      (String.intercalate " " scenarioTexts).data =
      some ['0', '3', '0', '-', '1', '2', '3', '4', ' '] := by decide
  have h2 : clean_text (some (String.mk ['0', '3', '0', '-', '1', '2', '3', '4', ' '])) =
      "030-1234" := by
    simp [clean_text, cleanCore, replaceNbsp, splitWs, joinSp, pyStrip, rstripWs,
      nbsp, isWs, notWs, List.isPrefixOf, List.takeWhile, List.dropWhile]
  have h3 : reSearchCap faxLabel (fun d => !(d == 'E'))
      (String.intercalate " " scenarioTexts).data =
      some ['0', '3', '0', '-', '5', '6', '7', '8'] := by decide
  have h4 : clean_text (some (String.mk ['0', '3', '0', '-', '5', '6', '7', '8'])) =
      "030-5678" := by
    simp [clean_text, cleanCore, replaceNbsp, splitWs, joinSp, pyStrip, rstripWs,
      nbsp, isWs, notWs, List.isPrefixOf, List.takeWhile, List.dropWhile]
  refine ⟨?_, ?_, ?_, ?_, ?_, ?_, ?_⟩ <;>
    simp only [extract_contact_details, h1, h2, h3, h4] <;> decide

/-- A response whose detail region contains first a hyperlink on the
source site itself and then an external hyperlink. -/
def twoLinkResp : Response :=
  { hrefs := ["https://www.bafa.bund.de/info", "https://example.com"] }

/-- C2 counterexample: the second hyperlink contains http and does not
contain the site domain, so the claim requires Website to be set to it and
be non-empty; the code only examines the first http hyperlink, which is on
the site domain, and leaves Website empty. -/
theorem c2_counterexample :
    (extract_contact_details scenarioItem [] "" twoLinkResp).Website = "" ∧
    "https://example.com" ∈ twoLinkResp.hrefs ∧
    strContains "https://example.com" "http" = true ∧
    strContains "https://example.com" "bafa.bund.de" = false := by decide

/-- C2 amended: Website is set to the first hyperlink of the detail region
whose target contains http, and only when that same first hyperlink does
not contain the site domain bafa.bund.de; when the first http hyperlink is
on the site domain, Website keeps its prior value even when a later
external hyperlink exists. -/
theorem c2_website_first_http_only (item : Item) (dts : List String)
    (content : String) (resp : Response) :
    (extract_contact_details item dts content resp).Website =
      (match (resp.hrefs.filter (fun h => strContains h "http")).head? with
      | some w =>
        if w ≠ "" ∧ strContains w "bafa.bund.de" = false then w else item.Website
      | none => item.Website) := by
  unfold extract_contact_details
  repeat' split
  all_goals simp_all

/-- C3 counterexample: on the uninitialized tracker (before set_total),
add_error does change the tracker state: the error list grows by the
message. -/
theorem c3_counterexample :
    ProgressStatsCollector.init.add_error "boom" ≠ ProgressStatsCollector.init := by
  decide

/-- C3 amended: before set_total (progress bar unset), record_outcome via
increment is a complete no-op, and add_error raises no error and leaves
the processed and failed counters unchanged, but it does append the
message to the error list. -/
theorem c3_uninitialized_tracker (s : ProgressStatsCollector) (success : Bool)
    (msg : String) (h : s.pbar = false) :
    s.increment success = s ∧
    s.add_error msg = { s with errors := s.errors ++ [msg] } ∧
    (s.add_error msg).processed_items = s.processed_items ∧
    (s.add_error msg).failed_items = s.failed_items := by
  refine ⟨?_, rfl, rfl, rfl⟩
  rw [ProgressStatsCollector.increment, if_neg (by rw [h]; exact Bool.false_ne_true)]

/-- Witness for C3: the freshly constructed collector has no progress bar,
increment leaves it unchanged, and add_error only appends the message. -/
theorem c3_uninitialized_tracker_witness :
    ProgressStatsCollector.init.increment false = ProgressStatsCollector.init ∧
    ProgressStatsCollector.init.add_error "boom" =
      { ProgressStatsCollector.init with
          errors := ProgressStatsCollector.init.errors ++ ["boom"] } ∧
    (ProgressStatsCollector.init.add_error "boom").processed_items =
      ProgressStatsCollector.init.processed_items ∧
    (ProgressStatsCollector.init.add_error "boom").failed_items =
      ProgressStatsCollector.init.failed_items :=
  c3_uninitialized_tracker ProgressStatsCollector.init false "boom" rfl

/-- A raw record whose postal code is five digits followed by one
newline. -/
def rawNewlinePlz : Item := { Beratername := "Anna", PLZ := "12345\n" }

/-- C4 counterexample: the record with raw PLZ of five digits plus a
trailing newline is accepted by validation with its PLZ kept unchanged,
yet that PLZ is neither empty nor a string of exactly five ASCII digits:
the Python end anchor of the validator regex also matches before a single
trailing newline. -/
theorem c4_counterexample :
    mkAdvisorData rawNewlinePlz = Except.ok rawNewlinePlz ∧
    rawNewlinePlz.PLZ ≠ "" ∧
    ¬(rawNewlinePlz.PLZ.data.length = 5 ∧
      rawNewlinePlz.PLZ.data.all Char.isDigit = true) :=
  ⟨rfl, by decide, by decide⟩

/-- C4 amended: for every raw record accepted by validation, the postal
code is either empty or matches the anchored five-digit pattern under
Python regex semantics (five digits optionally followed by one trailing
newline); a non-empty raw postal code not matching the pattern is reset to
the empty string without the record being rejected. -/
theorem c4_validated_plz (raw adv : Item) (h : mkAdvisorData raw = Except.ok adv) :
    (adv.PLZ = "" ∨ plzPattern adv.PLZ = true) ∧
    (plzPattern raw.PLZ = false → adv.PLZ = "") := by
  have hadv := (mkAdvisorData_ok raw adv h).2
  have hplz : adv.PLZ = validate_plz raw.PLZ := by rw [hadv]
  rw [hplz, validate_plz]
  by_cases hc : raw.PLZ ≠ "" ∧ plzPattern raw.PLZ = false
  · rw [if_pos hc]
    exact ⟨Or.inl rfl, fun _ => rfl⟩
  · rw [if_neg hc]
    push_neg at hc
    constructor
    · by_cases he : raw.PLZ = ""
      · exact Or.inl he
      · exact Or.inr (by
          have := hc he
          cases hp : plzPattern raw.PLZ with
          | false => exact absurd hp this
          | true => rfl)
    · intro hfalse
      by_cases he : raw.PLZ = ""
      · exact he
      · exact absurd hfalse (hc he)

/-- A raw record with a four-digit postal code. -/
def rawBadPlz : Item := { Beratername := "Anna", PLZ := "1234" }

/-- The validated form of rawBadPlz: its postal code is reset to empty. -/
def advBadPlz : Item := { Beratername := "Anna", PLZ := "" }

/-- Witness for C4: the four-digit postal code is reset to empty while the
record is kept. -/
theorem c4_validated_plz_witness :
    (advBadPlz.PLZ = "" ∨ plzPattern advBadPlz.PLZ = true) ∧ advBadPlz.PLZ = "" :=
  ⟨(c4_validated_plz rawBadPlz advBadPlz rfl).1,
   (c4_validated_plz rawBadPlz advBadPlz rfl).2 (by decide)⟩

/-- A listing row with four cells and a detail href, as a data row of the
listing page exposes. -/
def validRowA : ListingRow :=
  { cellTexts := [some "A", some "B", none, none], href4 := some "d" }

/-- C5 counterexample: in test mode on a two-row listing page, the
truncated row set has two rows but the tracker total is initialised to
five, not to the truncated row count. -/
theorem c5_counterexample :
    (parse true ProgressStatsCollector.init [validRowA, validRowA] "u").stats.total_items = 5 ∧
    ([validRowA, validRowA].take 5).length = 2 := by decide

/-- C5 amended: in test mode the processed row set is truncated to the
first five rows, so a page of fifty valid rows dispatches exactly five
detail fetches and never fifty; the tracker total however is initialised
to the constant five regardless of the actual row count, which equals the
truncated row count only when the page has at least five rows. -/
theorem c5_test_mode (stats : ProgressStatsCollector) (rows : List ListingRow)
    (u : String)
    (h : ∀ r ∈ rows, 4 ≤ r.cellTexts.length ∧ r.href4.isSome = true) :
    (parse true stats rows u).stats.total_items = 5 ∧
    (parse true stats rows u).requests.length = min 5 rows.length := by
  constructor
  · rfl
  · show (List.filterMap _ (rows.take 5)).length = min 5 rows.length
    rw [parseReqsLen u (rows.take 5)
      (fun r hr => h r (List.take_subset 5 rows hr))]
    exact List.length_take 5 rows

/-- Witness for C5: fifty identical valid rows in test mode dispatch
exactly five detail fetches and the tracker total is five. -/
theorem c5_test_mode_witness :
    (parse true ProgressStatsCollector.init (List.replicate 50 validRowA) "u").stats.total_items = 5 ∧
    (parse true ProgressStatsCollector.init (List.replicate 50 validRowA) "u").requests.length =
      min 5 (List.replicate 50 validRowA).length :=
  c5_test_mode ProgressStatsCollector.init (List.replicate 50 validRowA) "u"
    (fun r hr => by rw [List.eq_of_mem_replicate hr]; exact ⟨by decide, rfl⟩)

/-- C6: a table row exposing fewer than four structured cells yields the
absent result from extract_row_data; the modelled function is total, so no
exception is raised on such a row. -/
theorem c6_short_row_absent (row : ListingRow) (h : row.cellTexts.length < 4) :
    extract_row_data row = none := by
  rw [extract_row_data, if_neg (by omega)]

/-- A header-like row exposing only three cells. -/
def shortRow : ListingRow := { cellTexts := [some "A", some "B", none] }

/-- Witness for C6: the three-cell row yields none. -/
theorem c6_short_row_absent_witness :
    shortRow.cellTexts.length < 4 ∧ extract_row_data shortRow = none :=
  ⟨by decide, c6_short_row_absent shortRow (by decide)⟩

/-- C8: no record appended by parse_details has an empty name: every
record of the output list was already present or has a non-empty name;
and a raw record whose name is empty, processed against a response with
usable fragments, fails pydantic construction, is excluded from the
output, and increments the failure counter. -/
theorem c8_no_empty_name (stats : ProgressStatsCollector) (items : List Item)
    (item : Item) (resp : Response) (hbar : stats.pbar = true) :
    (∀ a ∈ (parse_details stats items item resp).2.2, a ∈ items ∨ a.Beratername ≠ "") ∧
    (item.Beratername = "" →
      (resp.detailTexts.map (fun t => clean_text (some t))).filter (fun t => t ≠ "") ≠ [] →
      (parse_details stats items item resp).2.2 = items ∧
      (parse_details stats items item resp).2.1.failed_items = stats.failed_items + 1) := by
  simp only [parse_details]
  by_cases hd :
      (resp.detailTexts.map (fun t => clean_text (some t))).filter (fun t => t ≠ "") = []
  · rw [if_pos hd]
    exact ⟨fun a ha => Or.inl ha, fun _ hne => absurd hd hne⟩
  · rw [if_neg hd]
    cases hmk : mkAdvisorData (extract_contact_details item
        ((resp.detailTexts.map (fun t => clean_text (some t))).filter (fun t => t ≠ ""))
        (String.intercalate " "
          ((resp.detailTexts.map (fun t => clean_text (some t))).filter (fun t => t ≠ "")))
        resp) with
    | ok adv =>
      rcases mkAdvisorData_ok _ adv hmk with ⟨hname, hadv⟩
      rw [extract_contact_details_Beratername] at hname
      constructor
      · intro a ha
        rcases List.mem_append.mp ha with hin | hone
        · exact Or.inl hin
        · right
          have ha2 : a = adv := by simpa using hone
          subst ha2
          rw [hadv]
          simpa [extract_contact_details_Beratername] using hname
      · intro hempty _
        exact absurd hempty hname
    | error e =>
      constructor
      · intro a ha
        exact Or.inl ha
      · intro _ _
        refine ⟨rfl, ?_⟩
        simp [ProgressStatsCollector.increment, hbar]

/-- A tracker in the active state, as parse leaves it. -/
def activeStats : ProgressStatsCollector := ProgressStatsCollector.init.set_total 1

/-- A raw record whose name is empty. -/
def emptyNameItem : Item := { Beratername := "" }

/-- A detail response whose content region yields one usable fragment. -/
def textResp : Response := { detailTexts := ["Musterstrasse 9"] }

/-- Witness for C8: the empty-name record is excluded and counted as a
failure. -/
theorem c8_no_empty_name_witness :
    (parse_details activeStats [] emptyNameItem textResp).2.2 = [] ∧
    (parse_details activeStats [] emptyNameItem textResp).2.1.failed_items =
      activeStats.failed_items + 1 := by
  have hne : (textResp.detailTexts.map (fun t => clean_text (some t))).filter
      (fun t => t ≠ "") ≠ [] := by
    simp [textResp, clean_text, cleanCore, replaceNbsp, splitWs, joinSp, pyStrip,
      rstripWs, nbsp, isWs, notWs, List.isPrefixOf, List.takeWhile, List.dropWhile]
  exact (c8_no_empty_name activeStats [] emptyNameItem textResp rfl).2 rfl hne

/-- C9: for every raw record accepted by validation, a non-empty website
field starts with one of the two explicit schemes, and a non-empty raw
website lacking a scheme has https:// prepended rather than the record
being rejected. -/
theorem c9_validated_website (raw adv : Item) (h : mkAdvisorData raw = Except.ok adv) :
    (adv.Website ≠ "" → startsHttp adv.Website = true) ∧
    (raw.Website ≠ "" → startsHttp raw.Website = false →
      adv.Website = "https://" ++ raw.Website) := by
  have hadv := (mkAdvisorData_ok raw adv h).2
  have hw : adv.Website = validate_website raw.Website := by rw [hadv]
  rw [hw, validate_website]
  by_cases hc : raw.Website ≠ "" ∧ startsHttp raw.Website = false
  · rw [if_pos hc]
    refine ⟨fun _ => ?_, fun _ _ => rfl⟩
    rw [startsHttp]
    apply Bool.or_eq_true_iff.mpr
    right
    rw [String.data_append]
    exact pfxAppend _ _ _ (pfxRefl _)
  · rw [if_neg hc]
    push_neg at hc
    constructor
    · intro hne
      cases hs : startsHttp raw.Website with
      | true => rfl
      | false => exact absurd hs (hc hne)
    · intro hne hfalse
      exact absurd hfalse (hc hne)

/-- A raw record whose website lacks a scheme. -/
def rawNoScheme : Item := { Beratername := "Anna", Website := "example.com" }

/-- The validated form of rawNoScheme: https:// is prepended. -/
def advNoScheme : Item := { Beratername := "Anna", Website := "https://example.com" }

/-- Witness for C9: the scheme-free website is accepted with https://
prepended, and the validated value carries an explicit scheme. -/
theorem c9_validated_website_witness :
    startsHttp advNoScheme.Website = true ∧
    advNoScheme.Website = "https://" ++ rawNoScheme.Website :=
  ⟨(c9_validated_website rawNoScheme advNoScheme rfl).1 (by decide),
   (c9_validated_website rawNoScheme advNoScheme rfl).2 (by decide) (by decide)⟩

/-- C10: a detail response whose content region yields no non-empty
cleaned fragment makes parse_details return none, append no record, and
leave the tracker untouched, so such a row reaches no terminal outcome. -/
theorem c10_no_fragments (stats : ProgressStatsCollector) (items : List Item)
    (item : Item) (resp : Response)
    (h : (resp.detailTexts.map (fun t => clean_text (some t))).filter (fun t => t ≠ "") = []) :
    parse_details stats items item resp = (none, stats, items) := by
  simp only [parse_details]
  rw [if_pos h]

/-- A detail response whose text nodes all clean to the empty string. -/
def blankResp : Response := { detailTexts := ["", "  "] }

/-- Witness for C10: the blank response yields no fragment and
parse_details changes nothing. -/
theorem c10_no_fragments_witness :
    ((blankResp.detailTexts.map (fun t => clean_text (some t))).filter
      (fun t => t ≠ "") = []) ∧
    parse_details ProgressStatsCollector.init [] scenarioItem blankResp =
      (none, ProgressStatsCollector.init, []) := by
  have h : (blankResp.detailTexts.map (fun t => clean_text (some t))).filter
      (fun t => t ≠ "") = [] := by
    simp [blankResp, clean_text, cleanCore, replaceNbsp, splitWs, joinSp, pyStrip,
      rstripWs, nbsp, isWs, notWs, List.isPrefixOf, List.takeWhile, List.dropWhile]
  exact ⟨h, c10_no_fragments ProgressStatsCollector.init [] scenarioItem blankResp h⟩

end Bafa
